import Mathlib

/-!
Verification of git-chronicler (src/main.rs) against its specification.

The program is embedded shallowly: Rust strings become `List Char`,
each `git` subprocess invocation and the HTTP provider become fields of
an explicit environment record, and `main` becomes a function from that
environment to a result paired with the list of observable effects
(network requests, repository mutations, prints).  All definitions are
translated from src/main.rs; definitions whose doc comment starts with
"Modelled from the spec" render a sentence of the specification instead,
for comparison with the code.
-/

namespace GitChronicler

/-- Rust `&str` / `String` values, modelled as lists of characters
(ASCII is all the program ever produces itself). -/
abbrev Str := List Char

/-- Conversion from a Lean string literal to the model type. -/
def str (s : String) : Str := s.data

/-- Character class of the regex `[A-Za-z0-9-]` used by the trailer
pattern in `get_last_git_messages` (src/main.rs line 185). -/
def isTokenChar (c : Char) : Bool :=
  ('A' ≤ c && c ≤ 'Z') || ('a' ≤ c && c ≤ 'z') || ('0' ≤ c && c ≤ '9') || c == '-'

/-- Whitespace, as used both by Rust `str::trim` and by the regex class
`\s` (restricted to the ASCII range; the program only faces ASCII
whitespace in practice). -/
def isWsChar (c : Char) : Bool :=
  c == ' ' || c == '\t' || c == '\n' || c == '\r' || c == '\x0b' || c == '\x0c'

/-- Rust `str::trim`: remove leading and trailing whitespace. -/
def rustTrim (s : Str) : Str :=
  ((s.dropWhile isWsChar).reverse.dropWhile isWsChar).reverse

/-- Rust `str::split(c)`: split at every occurrence of `c`; `n`
occurrences yield `n + 1` pieces, the empty string yields one empty
piece. -/
def splitOnChar (c : Char) : Str → List Str
  | [] => [[]]
  | x :: xs =>
    match splitOnChar c xs with
    | [] => [[]]
    | y :: ys => if x = c then [] :: y :: ys else (x :: y) :: ys

/-- Rust `str::lines()`: split at `'\n'`, do not produce a final empty
line for a trailing newline, and strip one trailing `'\r'` from each
line. -/
def rustLines (s : Str) : List Str :=
  let parts := splitOnChar '\n' s
  let parts := if parts.getLast? = some [] then parts.dropLast else parts
  parts.map (fun l => if l.getLast? = some '\r' then l.dropLast else l)

/-- `Vec<&str>::join(sep)`: the pieces interleaved with the separator. -/
def joinSep (sep : Str) : List Str → Str
  | [] => []
  | [m] => m
  | m :: m2 :: ms => m ++ sep ++ joinSep sep (m2 :: ms)

/-- `Vec<&str>::join("\n")`. -/
def joinLines (ls : List Str) : Str :=
  joinSep [('\n' : Char)] ls

/-- The regex `^[A-Za-z0-9-]+:\s+.+$` of src/main.rs line 185, under the
regex crate's semantics: a maximal nonempty run of token characters
(forced, since `:` is not in the class), a colon, then some split of the
remainder into a nonempty whitespace run (`\s+`) and a nonempty tail none
of whose characters is a newline (`.+` anchored at the end). -/
def matchesTrailer (s : Str) : Bool :=
  let tok := s.takeWhile isTokenChar
  let rest := s.drop tok.length
  (rest.head? == some ':') && decide (tok ≠ []) &&
    (List.range rest.tail.length).any (fun k =>
      decide (1 ≤ k) && (rest.tail.take k).all isWsChar &&
        decide (rest.tail.drop k ≠ []) &&
        (rest.tail.drop k).all (fun x => !(x == '\n')))

/-- The per-message processing of `get_last_git_messages`
(src/main.rs lines 190-195): keep the lines before the first one whose
trimmed form matches the trailer regex, join them with newlines and trim
the result. -/
def truncateMessage (msg : Str) : Str :=
  rustTrim (joinLines ((rustLines msg).takeWhile
    (fun line => !matchesTrailer (rustTrim line))))

/-- The pure part of `get_last_git_messages` (src/main.rs lines 185-198),
applied to the raw stdout of
`git log -nN --no-merges --pretty=format:%B%x00`: split at NUL bytes,
truncate each message at its first trailer line, and drop the messages
that came out empty. -/
def get_last_git_messages_pure (out : Str) : List Str :=
  ((splitOnChar '\x00' out).map truncateMessage).filter
    (fun message => decide (0 < message.length))

/-- Rust `str::strip_prefix`: `some rest` when `s = pre ++ rest`. -/
def stripLeading (pre s : Str) : Option Str :=
  match pre, s with
  | [], s => some s
  | _ :: _, [] => none
  | p :: ps, c :: cs => if c = p then stripLeading ps cs else none

/-- Modelled from the spec: "a line matching a trailer pattern
(`<token>: <value>`)" with a "token of letters, digits and hyphens" —
a nonempty token, a colon, some whitespace, and a nonempty value. -/
def isTrailerLine (s : Str) : Bool :=
  let tok := s.takeWhile isTokenChar
  let rest := s.drop tok.length
  (rest.head? == some ':') && decide (tok ≠ []) &&
    decide (rest.tail.takeWhile isWsChar ≠ []) &&
    decide (rest.tail.drop (rest.tail.takeWhile isWsChar).length ≠ [])

/-- Modelled from the spec: "truncates each message at the first line
matching the trailer pattern ..., removing that line and everything
after it" (the joined remainder is trimmed like any collected message). -/
def specTruncate (msg : Str) : Str :=
  let ls := rustLines msg
  rustTrim (joinLines (ls.take (ls.findIdx (fun l => isTrailerLine (rustTrim l)))))

/-! ## The four instruction templates (src/main.rs lines 37-78) -/

/-- `inline_prompt` (fixup action), src/main.rs lines 37-43. -/
def inline_prompt : Str :=
  str "Improve the git commit message for the patch and add any missing information you get from the code.  Explain why a change is done, not what was changed.  Keep the first line below 52 columns and next ones under 80 columns.  Return only the git commit message without any other information nor any delimiter.  Leave unchanged any signed-off line or any other trailer:\n"

/-- `write_prompt` (write action), src/main.rs lines 46-51. -/
def write_prompt : Str :=
  str "Write the git commit message for the patch and add any information you get from the code.  Explain why a change is done, not what was changed.  Keep the first line below 52 columns and next ones under 80 columns.  Return only the git commit message without any other information nor any delimiter:\n"

/-- `check_prompt` (check action), src/main.rs lines 54-60. -/
def check_prompt : Str :=
  str "Report any mistake you see in the commit log message.  If the input contains a significant error or discrepancy, the first line of the returned message must only contain the string ERROR and nothing more.  Ignore the date and the author information, look only at the commit message.  Explain carefully what changes you suggest:\n"

/-- `summary_prompt` (summary action), src/main.rs lines 70-78. -/
def summary_prompt : Str :=
  str "Summarize the changes in the git commits, give more importance to the commit messages.\n It is used as the description for a pull request.\nProvide first a one-line descriptive title.\n\n"

/-! ## Data model of the provider exchange (codehawk::openai types as
used by src/main.rs) -/

/-- A conversation message: role-tagged text.  `make_message(role, text)`
of the provider library builds exactly this pair. -/
structure Message where
  role : Str
  content : Str
deriving DecidableEq, Repr

/-- One completion choice of a provider reply; `choice.message.content`
is the text the program consumes (src/main.rs line 479). -/
structure Choice where
  message : Message
deriving DecidableEq, Repr

/-- A decoded provider reply: `response.choices` is optional
(src/main.rs lines 474-485 match on `Some`/`_`). -/
structure Response where
  choices : Option (List Choice)
deriving DecidableEq, Repr

/-- Observable effects of one invocation, in order of occurrence. -/
inductive Effect where
  /-- one POST of the conversation to the provider endpoint -/
  | network (msgs : List Message)
  /-- a commit successfully created by `git commit` (write action) -/
  | commitCreated (args : List Str) (msg : Str)
  /-- the last commit successfully amended (fixup action) -/
  | commitAmended (msg : Str)
  /-- a line printed to standard output -/
  | out (s : Str)
  /-- a line printed to the error stream -/
  | errOut (s : Str)
deriving DecidableEq, Repr

/-- The effect is the provider POST. -/
def Effect.isNetwork : Effect → Bool
  | .network _ => true
  | _ => false

/-- The effect mutates the repository (creates or amends a commit). -/
def Effect.isMutation : Effect → Bool
  | .commitCreated _ _ => true
  | .commitAmended _ => true
  | _ => false

/-- The external world of one invocation: outcomes of the `git`
subprocess, of the `git commit`/`git commit --amend` subprocesses fed via
stdin or a temp file, of `serde_json::to_string`, and of the provider
round-trip (`post_request`). -/
structure Env where
  /-- `run_git_command args`: captured stdout on exit 0, stderr text on
  non-zero exit (src/main.rs lines 161-176). -/
  git : List Str → Except Str Str
  /-- whether the spawned `git commit ...` subprocess (given these args
  and this message text) exits successfully -/
  gitSpawnOk : List Str → Str → Bool
  /-- its stderr text when it fails -/
  gitSpawnErr : List Str → Str → Str
  /-- `serde_json::to_string` of the recent-messages list -/
  jsonEncode : List Str → Str
  /-- `post_request messages`: the provider's reply, or a transport /
  HTTP / decode error (tool round-trips happen inside this call, in the
  provider library) -/
  provider : List Message → Except Str Response

/-- `run_git_command` (src/main.rs lines 161-176). -/
def run_git_command (env : Env) (args : List Str) : Except Str Str :=
  env.git args

/-- `get_last_commit`: `git log -p -1` (src/main.rs lines 210-212). -/
def get_last_commit (env : Env) : Except Str Str :=
  run_git_command env [str "log", str "-p", str "-1"]

/-- Argument list of `get_diff` (src/main.rs lines 216-223):
`git diff -U50` plus `--cached` for staged changes only. -/
def diffArgs (cached : Bool) : List Str :=
  [str "diff", str "-U50"] ++ (if cached then [str "--cached"] else [])

/-- `get_diff` (src/main.rs lines 215-230): run the diff, fail on a
non-zero exit, and fail with the empty-change-set error when the diff
text is empty. -/
def get_diff (env : Env) (cached : Bool) : Except Str Str :=
  match run_git_command env (diffArgs cached) with
  | .error e => .error e
  | .ok r =>
    if r.isEmpty then .error (str "Empty diff returned - no changes detected")
    else .ok r

/-- `get_branch_patches` (src/main.rs lines 204-207):
`git log -p <base>..HEAD`. -/
def get_branch_patches (env : Env) (base : Str) : Except Str Str :=
  run_git_command env [str "log", str "-p", base ++ str "..HEAD"]

/-- Argument list of `get_last_git_messages` (src/main.rs lines 180-181). -/
def logMessagesArgs (n : Nat) : List Str :=
  [str "log", str "-n" ++ str (toString n), str "--no-merges",
    str "--pretty=format:%B%x00"]

/-- `get_last_git_messages` (src/main.rs lines 179-201): run the log and
post-process its stdout. -/
def get_last_git_messages (env : Env) (n : Nat) : Except Str (List Str) :=
  (run_git_command env (logMessagesArgs n)).map get_last_git_messages_pure

/-- The `git` arguments issued by the `read_file` tool handler
(src/main.rs line 90): the second argument is the literal string
`HEAD:\x7b\x7d` — the `format!` placeholder was never interpolated —
and the requested path is passed as a third, separate argument. -/
def tool_read_file_args (path : Str) : List Str :=
  [str "show", str "HEAD:\x7b\x7d", path]

/-- Modelled from the spec: the `read_file` tool "returns the content of
that path as committed at the current head revision", i.e. it queries the
repository with a single object argument `HEAD:<path>`. -/
def spec_read_file_args (path : Str) : List Str :=
  [str "show", str "HEAD:" ++ path]

/-- `check_commit` (src/main.rs lines 335-344): when the reply starts
with the literal line `ERROR`, print the remainder (trimmed) to the
error stream and fail; otherwise print the reply to standard output and
succeed. -/
def check_commit (msg : Str) : Except Str Unit × List Effect :=
  match stripLeading (str "ERROR\n") msg with
  | some rest => (.error (str "wrong commit message"), [.errOut (rustTrim rest)])
  | none => (.ok (), [.out msg])

/-- The flag-dependent part of the `git commit` argument list built by
`write_commit` (src/main.rs lines 244-253). -/
def commitArgs (signoff cached : Bool) : List Str :=
  [str "commit"] ++ (if !cached then [str "-a"] else []) ++
    (if signoff then [str "-s"] else [])

/-- `write_commit` (src/main.rs lines 233-303).  Interactive mode passes
the message through a temporary file and opens the editor (the file path
is runtime-chosen; it is a placeholder here), non-interactive mode pipes
the message to stdin; either way a commit exists afterwards exactly when
the subprocess succeeded. -/
def write_commit (env : Env) (commit_msg : Str) (signoff cached interactive : Bool) :
    Except Str Unit × List Effect :=
  let args := commitArgs signoff cached
  if interactive then
    let fullArgs := args ++ [str "-F", str "<tempfile>", str "--edit"]
    if env.gitSpawnOk fullArgs commit_msg then
      (.ok (), [.commitCreated fullArgs commit_msg])
    else (.error (str "Commit command failed"), [])
  else
    let fullArgs := args ++ [str "-F", str "-"]
    if env.gitSpawnOk fullArgs commit_msg then
      (.ok (), [.commitCreated fullArgs commit_msg])
    else (.error (env.gitSpawnErr fullArgs commit_msg), [])

/-- `amend_commit` (src/main.rs lines 306-332):
`git commit --amend -F -` with the message piped to stdin. -/
def amend_commit (env : Env) (commit_msg : Str) : Except Str Unit × List Effect :=
  let args := [str "commit", str "--amend", str "-F", str "-"]
  if env.gitSpawnOk args commit_msg then
    (.ok (), [.commitAmended commit_msg])
  else (.error (env.gitSpawnErr args commit_msg), [])

/-- The subcommands of the CLI (src/main.rs lines 362-387). -/
inductive SubCmd where
  | write (signoff cached interactive : Bool)
  | fixup
  | check
  | summary (base : Str)
deriving DecidableEq, Repr

/-- The first step of `main` (src/main.rs lines 406-432): pick the
instruction template and collect the patch text for the chosen action. -/
def promptAndPatch (env : Env) (cmd : SubCmd) : Except Str (Str × Str) :=
  match cmd with
  | .fixup => (get_last_commit env).map (fun p => (inline_prompt, p))
  | .check => (get_last_commit env).map (fun p => (check_prompt, p))
  | .write _ cached _ => (get_diff env cached).map (fun p => (write_prompt, p))
  | .summary base => (get_branch_patches env base).map (fun p => (summary_prompt, p))

/-- Extraction of the final answer text from the provider reply
(src/main.rs lines 474-485): `none` when the choice list is absent or
empty, otherwise the concatenation (`collect::<String>()`, i.e. a fold
of appends) of every choice's message content. -/
def responseText (resp : Response) : Option Str :=
  match resp.choices with
  | some choices =>
    if choices.isEmpty then none
    else some ((choices.map (fun choice => choice.message.content)).foldl
      (fun acc s => acc ++ s) [])
  | none => none

/-- `main` (src/main.rs lines 390-513), from the point where the
subcommand is known: collect prompt and patch, collect and serialize the
last 100 commit messages, build the three-message conversation, send it,
extract the final answer, and apply the action's terminal effect.
Returns the process result together with the ordered effect trace. -/
def mainModel (env : Env) (cmd : SubCmd) : Except Str Unit × List Effect :=
  match promptAndPatch env cmd with
  | .error e => (.error e, [])
  | .ok (prompt, patch) =>
    match get_last_git_messages env 100 with
    | .error e => (.error e, [])
    | .ok last_git_messages =>
      let git_history_prompt :=
        str "Follow the style of these git commit messages: " ++
          env.jsonEncode last_git_messages
      let messages : List Message :=
        [⟨str "system", patch⟩, ⟨str "system", git_history_prompt⟩,
          ⟨str "user", prompt⟩]
      match env.provider messages with
      | .error e => (.error e, [.network messages])
      | .ok response =>
        match responseText response with
        | none => (.error (str "No responses received"), [.network messages])
        | some msg =>
          match cmd with
          | .fixup =>
            let (r, effs) := amend_commit env msg
            (r, Effect.network messages :: effs)
          | .check =>
            let (r, effs) := check_commit msg
            (r, Effect.network messages :: effs)
          | .write signoff cached interactive =>
            let (r, effs) := write_commit env msg signoff cached interactive
            (r, Effect.network messages :: effs)
          | .summary _ => (.ok (), [.network messages, .out msg])

/-! ## Concrete environments used to instantiate the theorems -/

/-- An environment whose working tree has no changes: `git diff`
(staged or not) prints nothing. -/
def emptyDiffEnv : Env where
  git := fun args =>
    if args = diffArgs false ∨ args = diffArgs true then .ok [] else .ok (str "log output")
  gitSpawnOk := fun _ _ => true
  gitSpawnErr := fun _ _ => str "fatal: commit failed"
  jsonEncode := fun _ => str "[]"
  provider := fun _ => .ok ⟨some [⟨⟨str "assistant", str "A message"⟩⟩]⟩

/-- An environment whose provider replies with an empty choice list. -/
def emptyChoicesEnv : Env where
  git := fun _ => .ok (str "patch text")
  gitSpawnOk := fun _ _ => true
  gitSpawnErr := fun _ _ => str "fatal: commit failed"
  jsonEncode := fun _ => str "[]"
  provider := fun _ => .ok ⟨some []⟩

/-- An environment where every step succeeds. -/
def okEnv : Env where
  git := fun _ => .ok (str "patch text")
  gitSpawnOk := fun _ _ => true
  gitSpawnErr := fun _ _ => str "fatal: commit failed"
  jsonEncode := fun _ => str "[\"patch text\"]"
  provider := fun _ => .ok ⟨some [⟨⟨str "assistant", str "New message"⟩⟩]⟩

/-- An environment whose provider round-trip fails (e.g. HTTP 429). -/
def providerFailEnv : Env where
  git := fun _ => .ok (str "patch text")
  gitSpawnOk := fun _ _ => true
  gitSpawnErr := fun _ _ => str "fatal: commit failed"
  jsonEncode := fun _ => str "[]"
  provider := fun _ => .error (str "HTTP status 429: \x7b\"error\":\"rate limited\"\x7d")

/-- Two raw commit messages as `git log` would emit them, NUL-separated:
a conventional-commit style one-liner and a trailer-bearing message. -/
def sampleMessages : List Str :=
  [str "fix: overflow", str "Good subject\n\nbody\n\nSigned-off-by: X <x@y.z>"]

/-! ## Supporting lemmas -/

theorem splitOnChar_ne_nil (c : Char) (s : Str) : splitOnChar c s ≠ [] := by
  cases s with
  | nil => simp [splitOnChar]
  | cons x xs =>
    simp only [splitOnChar]
    split
    · simp
    · split <;> simp

theorem not_mem_of_mem_splitOnChar {c : Char} {s p : Str}
    (hp : p ∈ splitOnChar c s) : c ∉ p := by
  induction s generalizing p with
  | nil =>
    simp only [splitOnChar, List.mem_singleton] at hp
    subst hp; simp
  | cons x xs ih =>
    simp only [splitOnChar] at hp
    cases h : splitOnChar c xs with
    | nil => exact absurd h (splitOnChar_ne_nil c xs)
    | cons y ys =>
      simp only [h] at hp
      split at hp
      · rcases List.mem_cons.mp hp with rfl | hp2
        · simp
        · exact ih (h ▸ hp2)
      · rename_i hx
        rcases List.mem_cons.mp hp with rfl | hp2
        · intro hc
          rcases List.mem_cons.mp hc with rfl | hc2
          · exact hx rfl
          · exact ih (h ▸ List.mem_cons_self y ys) hc2
        · exact ih (h ▸ List.mem_cons_of_mem y hp2)

theorem splitOnChar_append {c : Char} {m s : Str} (hm : c ∉ m) {y : Str}
    {ys : List Str} (h : splitOnChar c s = y :: ys) :
    splitOnChar c (m ++ s) = (m ++ y) :: ys := by
  induction m with
  | nil => simpa using h
  | cons x m ih =>
    have hx : ¬(x = c) := by
      intro he; exact hm (he ▸ List.mem_cons_self ..)
    have hm' : c ∉ m := fun hc => hm (List.mem_cons_of_mem _ hc)
    simp only [List.cons_append, splitOnChar, List.append_eq]
    rw [ih hm']
    simp [hx]

theorem splitOnChar_eq_single {c : Char} {m : Str} (hm : c ∉ m) :
    splitOnChar c m = [m] := by
  have h0 : splitOnChar c ([] : Str) = [] :: [] := rfl
  simpa using splitOnChar_append hm h0

theorem splitOnChar_joinSep {c : Char} {msgs : List Str} (hne : msgs ≠ [])
    (h0 : ∀ m ∈ msgs, c ∉ m) :
    splitOnChar c (joinSep [c] msgs) = msgs := by
  induction msgs with
  | nil => simp at hne
  | cons m ms ih =>
    cases ms with
    | nil => simpa [joinSep] using splitOnChar_eq_single (h0 m (by simp))
    | cons m2 ms2 =>
      have hrec := ih (by simp) (fun x hx => h0 x (List.mem_cons_of_mem _ hx))
      have hstep : splitOnChar c (c :: joinSep [c] (m2 :: ms2)) = [] :: m2 :: ms2 := by
        simp [splitOnChar, hrec]
      have happ := splitOnChar_append (h0 m (by simp)) hstep
      simpa [joinSep, List.append_assoc] using happ

theorem mem_rustTrim {x : Char} {s : Str} (h : x ∈ rustTrim s) : x ∈ s := by
  unfold rustTrim at h
  rw [List.mem_reverse] at h
  have h1 := (List.dropWhile_sublist (l := (s.dropWhile isWsChar).reverse) isWsChar).subset h
  rw [List.mem_reverse] at h1
  exact (List.dropWhile_sublist isWsChar).subset h1

theorem rustTrim_getLast_not_ws {s : Str} {x : Char}
    (h : (rustTrim s).getLast? = some x) : isWsChar x = false := by
  unfold rustTrim at h
  rw [List.getLast?_reverse] at h
  have hne : ((s.dropWhile isWsChar).reverse).dropWhile isWsChar ≠ [] := by
    intro he; rw [he] at h; simp at h
  rw [List.head?_eq_head hne] at h
  have hhead := List.head_dropWhile_not isWsChar ((s.dropWhile isWsChar).reverse) hne
  rwa [Option.some.inj h] at hhead

theorem rustLines_no_newline {m l : Str} (hl : l ∈ rustLines m) :
    ('\n' : Char) ∉ l := by
  unfold rustLines at hl
  simp only [List.mem_map] at hl
  obtain ⟨l0, hl0, rfl⟩ := hl
  have hsub : l0 ∈ splitOnChar '\n' m := by
    split at hl0
    · exact (List.dropLast_sublist _).subset hl0
    · exact hl0
  have hnot := not_mem_of_mem_splitOnChar hsub
  intro hmem
  apply hnot
  split at hmem
  · exact (List.dropLast_sublist l0).subset hmem
  · exact hmem

theorem trailer_tail_agree {r2 : Str} (hn : ∀ x ∈ r2, x ≠ '\n')
    (hl : ∀ x, r2.getLast? = some x → isWsChar x = false) :
    ((List.range r2.length).any (fun k =>
        decide (1 ≤ k) && (r2.take k).all isWsChar &&
          decide (r2.drop k ≠ []) && (r2.drop k).all (fun x => !(x == '\n'))))
      = (decide (r2.takeWhile isWsChar ≠ []) &&
          decide (r2.drop (r2.takeWhile isWsChar).length ≠ [])) := by
  rw [Bool.eq_iff_iff]
  simp only [List.any_eq_true, List.mem_range, Bool.and_eq_true, decide_eq_true_eq,
    List.all_eq_true, Bool.not_eq_true', beq_eq_false_iff_ne]
  constructor
  · rintro ⟨k, hkr, ⟨⟨hk1, hall⟩, hne⟩, -⟩
    have hws : r2.takeWhile isWsChar ≠ [] := by
      cases r2 with
      | nil => simp at hkr
      | cons c0 t =>
        obtain ⟨k2, rfl⟩ : ∃ k2, k = k2 + 1 := ⟨k - 1, by omega⟩
        have hc0 := hall c0 (by simp [List.take_succ_cons])
        simp [List.takeWhile_cons, hc0]
    refine ⟨hws, ?_⟩
    intro hd
    have hlen : r2.length ≤ (r2.takeWhile isWsChar).length := List.drop_eq_nil_iff.mp hd
    have hpre := List.takeWhile_prefix (l := r2) isWsChar
    have heq : r2.takeWhile isWsChar = r2 :=
      hpre.eq_of_length (le_antisymm hpre.length_le hlen)
    have hner2 : r2 ≠ [] := by
      intro h0
      rw [h0] at hne
      simp at hne
    obtain ⟨x, hx⟩ := Option.isSome_iff_exists.mp (List.getLast?_isSome.mpr hner2)
    have hxmem : x ∈ r2.takeWhile isWsChar := by
      rw [heq]
      rcases List.getLast?_eq_some_iff.mp hx with ⟨ys, hys⟩
      rw [hys]
      simp
    have hxws := List.mem_takeWhile_imp hxmem
    rw [hl x hx] at hxws
    exact Bool.false_ne_true hxws
  · rintro ⟨hws, hdrop⟩
    have hlt : (r2.takeWhile isWsChar).length < r2.length := by
      by_contra hge
      exact hdrop (List.drop_eq_nil_iff.mpr (by omega))
    have htake : r2.take (r2.takeWhile isWsChar).length = r2.takeWhile isWsChar :=
      (List.prefix_iff_eq_take.mp ( List.takeWhile_prefix _)).symm
    refine ⟨(r2.takeWhile isWsChar).length, hlt, ⟨⟨?_, ?_⟩, hdrop⟩, ?_⟩
    · have := List.length_pos.mpr hws
      omega
    · intro x hx
      rw [htake] at hx
      exact List.mem_takeWhile_imp hx
    · intro x hx
      exact hn x (List.drop_subset _ _ hx)

theorem matchesTrailer_eq_isTrailerLine {s : Str} (hn : ('\n' : Char) ∉ s)
    (hlast : ∀ x, s.getLast? = some x → isWsChar x = false) :
    matchesTrailer s = isTrailerLine s := by
  simp only [matchesTrailer, isTrailerLine]
  cases hr : s.drop (s.takeWhile isTokenChar).length with
  | nil => rfl
  | cons c r2 =>
    have hsplit : s = s.takeWhile isTokenChar ++ c :: r2 := by
      conv_lhs => rw [← List.take_append_drop (s.takeWhile isTokenChar).length s]
      rw [hr]
      congr 1
      exact (List.prefix_iff_eq_take.mp ( List.takeWhile_prefix _)).symm
    have hn2 : ∀ x ∈ r2, x ≠ '\n' := by
      intro x hx he
      apply hn
      subst he
      rw [hsplit]
      exact List.mem_append_right _ (List.mem_cons_of_mem _ hx)
    have hl2 : ∀ x, r2.getLast? = some x → isWsChar x = false := by
      intro x hx
      apply hlast
      have hs2 : s = (s.takeWhile isTokenChar ++ [c]) ++ r2 := by
        rw [List.append_assoc, List.singleton_append]
        exact hsplit
      rw [hs2, List.getLast?_append, hx]
      rfl
    simp only [List.head?_cons, List.tail_cons]
    rw [trailer_tail_agree hn2 hl2, ← Bool.and_assoc]

theorem findIdx_congr_mem {α : Type} {p q : α → Bool} {l : List α}
    (h : ∀ x ∈ l, p x = q x) : l.findIdx p = l.findIdx q := by
  induction l with
  | nil => rfl
  | cons a t ih =>
    rw [List.findIdx_cons, List.findIdx_cons, h a (List.mem_cons_self ..),
      ih (fun x hx => h x (List.mem_cons_of_mem _ hx))]

theorem truncateMessage_eq_specTruncate (m : Str) :
    truncateMessage m = specTruncate m := by
  simp only [truncateMessage, specTruncate]
  refine congrArg rustTrim (congrArg joinLines ?_)
  rw [List.takeWhile_eq_take_findIdx_not]
  have hidx : (rustLines m).findIdx
        (fun a => !(!matchesTrailer (rustTrim a)))
      = (rustLines m).findIdx (fun l => isTrailerLine (rustTrim l)) := by
    apply findIdx_congr_mem
    intro l hl
    have hn := rustLines_no_newline hl
    have hnt : ('\n' : Char) ∉ rustTrim l := fun hmem => hn (mem_rustTrim hmem)
    simp only [Bool.not_not]
    exact matchesTrailer_eq_isTrailerLine hnt (fun x hx => rustTrim_getLast_not_ws hx)
  rw [hidx]

theorem stripLeading_eq_some {pre s rest : Str} :
    stripLeading pre s = some rest ↔ s = pre ++ rest := by
  induction pre generalizing s with
  | nil => simp [stripLeading]
  | cons p ps ih =>
    cases s with
    | nil => simp [stripLeading]
    | cons c cs =>
      simp only [stripLeading]
      by_cases hc : c = p
      · subst hc
        simp [ih]
      · simp [hc, Ne.symm hc]

theorem foldl_append_eq_flatten {α : Type} (init : List α) (ls : List (List α)) :
    ls.foldl (fun acc s => acc ++ s) init = init ++ ls.flatten := by
  induction ls generalizing init with
  | nil => simp
  | cons x t ih => simp [List.foldl_cons, ih, List.append_assoc]

/-! ## Claim theorems -/

/-- C1: the `read_file` tool does not query revision HEAD at the
requested path.  The `format!` placeholder of src/main.rs line 90 was
never interpolated, so the subprocess is invoked with the literal
argument `HEAD:` followed by an open and close brace, plus the path as a
separate third argument, instead of the single object `HEAD:<path>` the
specification describes; at path `src/main.rs` the two argument lists
differ (they even have different lengths, so they differ at every
path). -/
theorem read_file_tool_args_bug :
    tool_read_file_args (str "src/main.rs")
        = [str "show", str "HEAD:\x7b\x7d", str "src/main.rs"] ∧
    spec_read_file_args (str "src/main.rs")
        = [str "show", str "HEAD:src/main.rs"] ∧
    ∀ p : Str, tool_read_file_args p ≠ spec_read_file_args p := by
  refine ⟨rfl, rfl, ?_⟩
  intro p h
  have hlen := congrArg List.length h
  simp [tool_read_file_args, spec_read_file_args] at hlen

/-- C3: for the check action, a final answer beginning with the line
`ERROR` has its remainder (trimmed) printed to the error stream, nothing
on standard output, and the invocation fails; any other answer is
printed in full to standard output and the invocation succeeds; in
particular the reply `ERROR` newline `foo` fails with `foo` on the error
stream. -/
theorem check_error_sentinel (t : Str) :
    (∀ rest, t = str "ERROR\n" ++ rest →
      check_commit t
        = (.error (str "wrong commit message"), [.errOut (rustTrim rest)])) ∧
    ((¬ ∃ rest, t = str "ERROR\n" ++ rest) →
      check_commit t = (.ok (), [.out t])) ∧
    check_commit (str "ERROR\nfoo")
      = (.error (str "wrong commit message"), [.errOut (str "foo")]) := by
  refine ⟨?_, ?_, rfl⟩
  · intro rest hrest
    have hs : stripLeading (str "ERROR\n") t = some rest :=
      stripLeading_eq_some.mpr hrest
    simp [check_commit, hs]
  · intro hno
    cases hs : stripLeading (str "ERROR\n") t with
    | some rest => exact absurd ⟨rest, stripLeading_eq_some.mp hs⟩ hno
    | none => simp [check_commit, hs]

/-- C3 witness: the general statement instantiated at the reply
`ERROR` newline `foo`. -/
theorem check_error_sentinel_witness :
    check_commit (str "ERROR\nfoo")
      = (.error (str "wrong commit message"), [.errOut (str "foo")]) :=
  (check_error_sentinel (str "ERROR\nfoo")).2.2

/-- C9: the check action fails exactly on the prefix `ERROR` plus
newline; a reply of exactly `ERROR` with no newline, of `ERROR` plus a
space, or of lowercase `error` plus newline, is a success printed to
standard output. -/
theorem check_exact_sentinel_only (t : Str) :
    ((check_commit t).1 = .error (str "wrong commit message")
        ↔ ∃ rest, t = str "ERROR\n" ++ rest) ∧
    check_commit (str "ERROR") = (.ok (), [.out (str "ERROR")]) ∧
    check_commit (str "ERROR ") = (.ok (), [.out (str "ERROR ")]) ∧
    check_commit (str "error\nfoo") = (.ok (), [.out (str "error\nfoo")]) := by
  refine ⟨?_, rfl, rfl, rfl⟩
  constructor
  · intro herr
    cases hs : stripLeading (str "ERROR\n") t with
    | some rest => exact ⟨rest, stripLeading_eq_some.mp hs⟩
    | none => simp [check_commit, hs] at herr
  · rintro ⟨rest, rfl⟩
    have hs : stripLeading (str "ERROR\n") (str "ERROR\n" ++ rest) = some rest :=
      stripLeading_eq_some.mpr rfl
    simp [check_commit, hs]

/-- C9 witness: the general statement instantiated at the reply
consisting of exactly `ERROR` with no following newline. -/
theorem check_exact_sentinel_only_witness :
    check_commit (str "ERROR") = (.ok (), [.out (str "ERROR")]) :=
  (check_exact_sentinel_only (str "ERROR")).2.1

/-- C5: the final answer text equals the ordered concatenation of every
choice's message content with no separators and no deduplication,
including multi-choice replies. -/
theorem response_text_concatenation (cs : List Choice) (h : cs ≠ []) :
    responseText ⟨some cs⟩
      = some ((cs.map (fun c => c.message.content)).flatten) := by
  cases cs with
  | nil => exact absurd rfl h
  | cons a t =>
    simp only [responseText, List.isEmpty_cons, Bool.false_eq_true, if_false]
    rw [foldl_append_eq_flatten]
    simp

/-- C5 witness: a two-choice reply concatenates both contents in order,
repeated text included. -/
theorem response_text_concatenation_witness :
    responseText ⟨some [⟨⟨str "assistant", str "Part one. "⟩⟩,
        ⟨⟨str "assistant", str "Part one. "⟩⟩]⟩
      = some (str "Part one. Part one. ") := by
  rw [response_text_concatenation
    [⟨⟨str "assistant", str "Part one. "⟩⟩, ⟨⟨str "assistant", str "Part one. "⟩⟩]
    (by simp)]
  rfl

/-- C10: the trailer pattern is matched against every line, so a message
whose very first line has the `token: value` shape — e.g. a
conventional-commit subject — is truncated to the empty message and
hence dropped from the style sample. -/
theorem trailer_first_line_drops_message (msg l0 : Str) (rest : List Str)
    (hsplit : rustLines msg = l0 :: rest)
    (hmatch : matchesTrailer (rustTrim l0) = true) :
    truncateMessage msg = [] ∧
    ∀ out, truncateMessage msg ∉ get_last_git_messages_pure out := by
  have htrunc : truncateMessage msg = [] := by
    unfold truncateMessage
    rw [hsplit, List.takeWhile_cons]
    simp only [hmatch, Bool.not_true, Bool.false_eq_true, if_false]
    rfl
  refine ⟨htrunc, ?_⟩
  intro out hmem
  rw [htrunc] at hmem
  have hfil := List.of_mem_filter hmem
  simp at hfil

/-- C10 witness: the conventional-commit message
`fix: handle overflow` (with a body) truncates to empty and never
appears in the collected style sample. -/
theorem trailer_first_line_drops_message_witness :
    truncateMessage (str "fix: handle overflow\n\nmore text") = [] ∧
    truncateMessage (str "fix: handle overflow\n\nmore text") ∉
      get_last_git_messages_pure
        (str "fix: handle overflow\n\nmore text\x00Other subject") := by
  have h := trailer_first_line_drops_message
    (str "fix: handle overflow\n\nmore text") (str "fix: handle overflow")
    [str "", str "more text"] (by decide) (by decide)
  exact ⟨h.1, h.2 _⟩

/-- C4: applied to the NUL-separated messages of the repository log,
the message collection truncates each message at its first line matching
the trailer pattern (removing that line and everything after it), drops
every message that is empty after truncation and trimming, and preserves
the order of the remaining messages: the result is exactly the
order-preserving filter of the spec-side truncation, and a sublist of
the truncated list. -/
theorem recent_messages_truncate_filter_order (msgs : List Str)
    (hne : msgs ≠ []) (h0 : ∀ m ∈ msgs, ('\x00' : Char) ∉ m) :
    get_last_git_messages_pure (joinSep [('\x00' : Char)] msgs)
        = (msgs.map specTruncate).filter (fun m => decide (m ≠ [])) ∧
    ((msgs.map specTruncate).filter (fun m => decide (m ≠ []))).Sublist
        (msgs.map specTruncate) := by
  refine ⟨?_, List.filter_sublist _⟩
  unfold get_last_git_messages_pure
  rw [splitOnChar_joinSep hne h0,
    (funext truncateMessage_eq_specTruncate : truncateMessage = specTruncate)]
  apply List.filter_congr
  intro x _
  exact decide_eq_decide.mpr List.length_pos

/-- C4 witness: on a concrete two-message log — a conventional-commit
one-liner and a trailer-bearing message — the collection truncates the
trailer, drops the emptied message, and keeps the remaining one. -/
theorem recent_messages_truncate_filter_order_witness :
    get_last_git_messages_pure (joinSep [('\x00' : Char)] sampleMessages)
        = [str "Good subject\n\nbody"] := by
  have h := recent_messages_truncate_filter_order sampleMessages
    (by decide) (by decide)
  rw [h.1]
  decide

/-- C2: when the underlying diff (staged for `cached = true`, unstaged
for `cached = false`) is empty, the write action fails with the
empty-change-set error, no request is ever sent to the provider, and no
commit is created — the effect trace is empty. -/
theorem write_empty_diff_fails_before_network (env : Env)
    (signoff cached interactive : Bool)
    (h : env.git (diffArgs cached) = .ok []) :
    (mainModel env (.write signoff cached interactive)).1
        = .error (str "Empty diff returned - no changes detected") ∧
    (mainModel env (.write signoff cached interactive)).2 = [] ∧
    diffArgs true = [str "diff", str "-U50", str "--cached"] ∧
    diffArgs false = [str "diff", str "-U50"] := by
  have hd : get_diff env cached
      = .error (str "Empty diff returned - no changes detected") := by
    simp [get_diff, run_git_command, h]
  have hpp : promptAndPatch env (.write signoff cached interactive)
      = .error (str "Empty diff returned - no changes detected") := by
    simp [promptAndPatch, hd, Except.map]
  refine ⟨?_, ?_, rfl, rfl⟩ <;> simp [mainModel, hpp]

/-- C2 witness: the statement instantiated in an environment whose
working tree is clean. -/
theorem write_empty_diff_fails_before_network_witness :
    emptyDiffEnv.git (diffArgs false) = .ok [] ∧
    (mainModel emptyDiffEnv (.write false false false)).1
        = .error (str "Empty diff returned - no changes detected") ∧
    (mainModel emptyDiffEnv (.write false false false)).2 = [] := by
  have hgit : emptyDiffEnv.git (diffArgs false) = .ok [] := by
    simp [emptyDiffEnv]
  have h := write_empty_diff_fails_before_network emptyDiffEnv false false false hgit
  exact ⟨hgit, h.1, h.2.1⟩

/-- C6: a provider reply whose choice list is absent or empty is a
terminal failure ("No responses received"); the run performs no commit,
no amend and no print — every effect in the trace is the provider POST
itself. -/
theorem empty_choices_terminal_error (env : Env) (cmd : SubCmd)
    (prompt patch : Str)
    (hpp : promptAndPatch env cmd = .ok (prompt, patch))
    (lm : List Str) (hlm : get_last_git_messages env 100 = .ok lm)
    (resp : Response) (hprov : ∀ ms, env.provider ms = .ok resp)
    (hch : resp.choices = none ∨ resp.choices = some []) :
    (mainModel env cmd).1 = .error (str "No responses received") ∧
    ∀ e ∈ (mainModel env cmd).2, e.isNetwork = true := by
  have hrt : responseText resp = none := by
    rcases hch with hc | hc <;> simp [responseText, hc]
  constructor <;> simp [mainModel, hpp, hlm, hprov, hrt, Effect.isNetwork]

/-- C6 witness: the statement instantiated for the fixup action in an
environment whose provider replies with an empty choice list. -/
theorem empty_choices_terminal_error_witness :
    (mainModel emptyChoicesEnv .fixup).1 = .error (str "No responses received") ∧
    ∀ e ∈ (mainModel emptyChoicesEnv .fixup).2, e.isNetwork = true := by
  have hpp : promptAndPatch emptyChoicesEnv .fixup
      = .ok (inline_prompt, str "patch text") := by
    simp [promptAndPatch, get_last_commit, run_git_command, emptyChoicesEnv, Except.map]
  have hlm : get_last_git_messages emptyChoicesEnv 100
      = .ok (get_last_git_messages_pure (str "patch text")) := by
    simp [get_last_git_messages, run_git_command, emptyChoicesEnv, Except.map]
  exact empty_choices_terminal_error emptyChoicesEnv .fixup _ _ hpp _ hlm
    ⟨some []⟩ (fun ms => rfl) (Or.inr rfl)

/-- C8: for every action, the initial conversation is exactly: first a
system-role message carrying the raw patch/diff/range text, second a
system-role message carrying the style hint embedding the serialized
recent-messages list, third a user-role message carrying the selected
action's instruction template — and this list heads the effect trace as
the provider POST. -/
theorem initial_message_order (env : Env) (cmd : SubCmd)
    (prompt patch : Str)
    (hpp : promptAndPatch env cmd = .ok (prompt, patch))
    (logOut : Str) (hlog : env.git (logMessagesArgs 100) = .ok logOut) :
    (∃ rest, (mainModel env cmd).2
        = Effect.network
            [⟨str "system", patch⟩,
             ⟨str "system", str "Follow the style of these git commit messages: "
                ++ env.jsonEncode (get_last_git_messages_pure logOut)⟩,
             ⟨str "user", prompt⟩] :: rest) ∧
    (cmd = .fixup → prompt = inline_prompt) ∧
    (cmd = .check → prompt = check_prompt) ∧
    (∀ s c i, cmd = .write s c i → prompt = write_prompt) ∧
    (∀ b, cmd = .summary b → prompt = summary_prompt) := by
  have hlm : get_last_git_messages env 100
      = .ok (get_last_git_messages_pure logOut) := by
    simp [get_last_git_messages, run_git_command, hlog, Except.map]
  refine ⟨?_, ?_, ?_, ?_, ?_⟩
  · cases hprov : env.provider
        [⟨str "system", patch⟩,
         ⟨str "system", str "Follow the style of these git commit messages: "
            ++ env.jsonEncode (get_last_git_messages_pure logOut)⟩,
         ⟨str "user", prompt⟩] with
    | error e => exact ⟨[], by simp [mainModel, hpp, hlm, hprov]⟩
    | ok resp =>
      cases hrt : responseText resp with
      | none => exact ⟨[], by simp [mainModel, hpp, hlm, hprov, hrt]⟩
      | some msg =>
        cases cmd with
        | fixup =>
          exact ⟨(amend_commit env msg).2,
            by simp [mainModel, hpp, hlm, hprov, hrt]⟩
        | check =>
          exact ⟨(check_commit msg).2,
            by simp [mainModel, hpp, hlm, hprov, hrt]⟩
        | write s c i =>
          exact ⟨(write_commit env msg s c i).2,
            by simp [mainModel, hpp, hlm, hprov, hrt]⟩
        | summary b =>
          exact ⟨[.out msg],
            by simp [mainModel, hpp, hlm, hprov, hrt]⟩
  · rintro rfl
    simp only [promptAndPatch] at hpp
    cases hg : get_last_commit env with
    | error e => rw [hg] at hpp; simp [Except.map] at hpp
    | ok p =>
      rw [hg] at hpp
      simp [Except.map] at hpp
      exact hpp.1.symm
  · rintro rfl
    simp only [promptAndPatch] at hpp
    cases hg : get_last_commit env with
    | error e => rw [hg] at hpp; simp [Except.map] at hpp
    | ok p =>
      rw [hg] at hpp
      simp [Except.map] at hpp
      exact hpp.1.symm
  · rintro s c i rfl
    simp only [promptAndPatch] at hpp
    cases hg : get_diff env c with
    | error e => rw [hg] at hpp; simp [Except.map] at hpp
    | ok p =>
      rw [hg] at hpp
      simp [Except.map] at hpp
      exact hpp.1.symm
  · rintro b rfl
    simp only [promptAndPatch] at hpp
    cases hg : get_branch_patches env b with
    | error e => rw [hg] at hpp; simp [Except.map] at hpp
    | ok p =>
      rw [hg] at hpp
      simp [Except.map] at hpp
      exact hpp.1.symm

/-- C8 witness: the statement instantiated for the fixup action in a
fully succeeding environment. -/
theorem initial_message_order_witness :
    ∃ rest, (mainModel okEnv .fixup).2
        = Effect.network
            [⟨str "system", str "patch text"⟩,
             ⟨str "system", str "Follow the style of these git commit messages: "
                ++ okEnv.jsonEncode (get_last_git_messages_pure (str "patch text"))⟩,
             ⟨str "user", inline_prompt⟩] :: rest := by
  have hpp : promptAndPatch okEnv .fixup = .ok (inline_prompt, str "patch text") := by
    simp [promptAndPatch, get_last_commit, run_git_command, okEnv, Except.map]
  have h := initial_message_order okEnv .fixup inline_prompt (str "patch text")
    hpp (str "patch text") (by simp [okEnv])
  exact h.1

/-- C7: an invocation that ends in failure never creates or amends a
commit; conversely, any repository mutation appearing in the effect
trace is the final effect of a run whose result is success — the
mutation is the last step, gated on a fully successful conversation. -/
theorem no_mutation_on_failure (env : Env) (cmd : SubCmd) :
    (∀ err, (mainModel env cmd).1 = .error err →
        ∀ e ∈ (mainModel env cmd).2, e.isMutation = false) ∧
    (∀ e ∈ (mainModel env cmd).2, e.isMutation = true →
        (mainModel env cmd).1 = .ok () ∧
        (mainModel env cmd).2.getLast? = some e) := by
  cases hpp : promptAndPatch env cmd with
  | error e0 => constructor <;> simp [mainModel, hpp]
  | ok pp =>
    obtain ⟨prompt, patch⟩ := pp
    cases hlm : get_last_git_messages env 100 with
    | error e0 => constructor <;> simp [mainModel, hpp, hlm]
    | ok lm =>
      cases hprov : env.provider
          [⟨str "system", patch⟩,
           ⟨str "system", str "Follow the style of these git commit messages: "
              ++ env.jsonEncode lm⟩,
           ⟨str "user", prompt⟩] with
      | error e0 =>
        constructor <;>
          simp [mainModel, hpp, hlm, hprov, Effect.isMutation]
      | ok resp =>
        cases hrt : responseText resp with
        | none =>
          constructor <;>
            simp [mainModel, hpp, hlm, hprov, hrt, Effect.isMutation]
        | some msg =>
          cases cmd with
          | fixup =>
            by_cases hok :
                env.gitSpawnOk [str "commit", str "--amend", str "-F", str "-"] msg <;>
              constructor <;>
                simp [mainModel, hpp, hlm, hprov, hrt, amend_commit, hok,
                  Effect.isMutation]
          | check =>
            cases hs : stripLeading (str "ERROR\n") msg with
            | some rest =>
              constructor <;>
                simp [mainModel, hpp, hlm, hprov, hrt, check_commit, hs,
                  Effect.isMutation]
            | none =>
              constructor <;>
                simp [mainModel, hpp, hlm, hprov, hrt, check_commit, hs,
                  Effect.isMutation]
          | write s c i =>
            cases i <;>
              [by_cases hok :
                  env.gitSpawnOk (commitArgs s c ++ [str "-F", str "-"]) msg;
               by_cases hok :
                  env.gitSpawnOk (commitArgs s c ++ [str "-F", str "<tempfile>",
                    str "--edit"]) msg] <;>
              constructor <;>
                simp [mainModel, hpp, hlm, hprov, hrt, write_commit, hok,
                  Effect.isMutation]
          | summary b =>
            constructor <;>
              simp [mainModel, hpp, hlm, hprov, hrt, Effect.isMutation]

/-- C7 witness: in an environment whose provider round-trip fails with
an HTTP error, the fixup action fails and its trace contains no
repository mutation. -/
theorem no_mutation_on_failure_witness :
    (mainModel providerFailEnv .fixup).1
        = .error (str "HTTP status 429: \x7b\"error\":\"rate limited\"\x7d") ∧
    ∀ e ∈ (mainModel providerFailEnv .fixup).2, e.isMutation = false := by
  have hres : (mainModel providerFailEnv .fixup).1
      = .error (str "HTTP status 429: \x7b\"error\":\"rate limited\"\x7d") := by
    simp [mainModel, promptAndPatch, get_last_commit, get_last_git_messages,
      run_git_command, providerFailEnv, Except.map]
  exact ⟨hres, (no_mutation_on_failure providerFailEnv .fixup).1 _ hres⟩

end GitChronicler
